import Mathlib

/-!
Shallow embedding of the command-argument parsing and instance-registry
engine of src/Commands.cpp (SumatraPDF).

Conventions of the embedding:
* C strings and cursors into them are `List Char`; a (possibly null)
  `const char*` cursor is `Option (List Char)` with `none` for `nullptr`
  and `some suffix` for a pointer into the string.
* Global mutable state (`gNextCommandWithArgId`, `gFirstCommandWithArg`)
  is threaded explicitly through a `CmdState` value.
* Machine `int` values are `Int`.
* The command catalog, the `kCmdArg*` name constants, the numeric command
  ids, `ParseColor`, `ParseInt` and the `str::`/`seqstrings::` helpers
  live in headers and utility files that are not part of the analysed
  source; those are modelled from the specification and marked
  `Modelled from the spec:` in their doc comments.  Everything else is a
  direct translation of src/Commands.cpp.
-/

/-- ASCII-case-insensitive string equality, the model of `str::EqI`
(utility code outside the analysed source; `Char.toLower` lower-cases
exactly the ASCII range, as C `tolower` does in the "C" locale). -/
def eqI (a b : List Char) : Bool :=
  a.map Char.toLower == b.map Char.toLower

/-- ASCII-case-insensitive "starts with", the model of `str::StartsWithI`. -/
def startsWithI (s pre : List Char) : Bool :=
  eqI (s.take pre.length) pre

/-- Model of `str::SkipChar(s, c)`: skip one leading occurrence of `c`. -/
def skipChar (ch : Char) : List Char → List Char
  | [] => []
  | x :: xs => if x = ch then xs else x :: xs

/-- Model of `str::FindChar(s, c)`: returns the text before the first
occurrence of `c` and, when found, the suffix that starts at that
occurrence (the C function returns a pointer to the occurrence or null). -/
def findCharSplit (ch : Char) : List Char → List Char × Option (List Char)
  | [] => ([], none)
  | x :: xs =>
    if x = ch then ([], some (x :: xs))
    else
      let r := findCharSplit ch xs
      (x :: r.1, r.2)

/-- Modelled from the spec: `Split(parts, definition, " ", true, 2)` splits
the definition into the command-name token and an optional remainder, on
the first space only, preserving the remainder as a single unit; an empty
remainder is collapsed away (no remainder). -/
def splitFirstSpace : List Char → List Char × Option (List Char)
  | [] => ([], none)
  | c :: rest =>
    if c = ' ' then ([], if rest = [] then none else some rest)
    else
      let r := splitFirstSpace rest
      (c :: r.1, r.2)

/-- The argument value types, `CommandArg::Type` in the source. -/
inductive ArgType where
  | None
  | String
  | Int
  | Bool
  | Color
deriving DecidableEq, Repr

/-- Modelled from the spec: the decoded color produced by the external
color-text parser (`ParsedColor` from utils, not under the analysed
source): red, green, blue and alpha components. -/
structure ParsedColor where
  r : Nat
  g : Nat
  b : Nat
  a : Nat
deriving DecidableEq, Repr

/-- The all-zero color a value-initialized `CommandArg` carries. -/
def zeroColor : ParsedColor := ⟨0, 0, 0, 0⟩

/-- Value of a hexadecimal digit character. -/
def hexDigitVal (c : Char) : Option Nat :=
  if '0' ≤ c ∧ c ≤ '9' then some (c.toNat - '0'.toNat)
  else if 'a' ≤ c ∧ c ≤ 'f' then some (10 + c.toNat - 'a'.toNat)
  else if 'A' ≤ c ∧ c ≤ 'F' then some (10 + c.toNat - 'A'.toNat)
  else none

/-- Two hexadecimal digits as one byte. -/
def hexByte (c1 c2 : Char) : Option Nat :=
  match hexDigitVal c1, hexDigitVal c2 with
  | some a, some b => some (16 * a + b)
  | _, _ => none

/-- Modelled from the spec: the external color-text parser (`ParseColor`
from utils, not under the analysed source).  It accepts `#rrggbb` and
`#aarrggbb` hexadecimal forms and reports failure (`none`, the model of
`parsedOk == false`) for everything else. -/
def ParseColor (s : List Char) : Option ParsedColor :=
  match s with
  | '#' :: c1 :: c2 :: c3 :: c4 :: c5 :: c6 :: [] =>
    match hexByte c1 c2, hexByte c3 c4, hexByte c5 c6 with
    | some r, some g, some b => some ⟨r, g, b, 255⟩
    | _, _, _ => none
  | '#' :: a1 :: a2 :: c1 :: c2 :: c3 :: c4 :: c5 :: c6 :: [] =>
    match hexByte a1 a2, hexByte c1 c2, hexByte c3 c4, hexByte c5 c6 with
    | some a, some r, some g, some b => some ⟨r, g, b, a⟩
    | _, _, _, _ => none
  | _ => none

/-- Accumulate the value of leading decimal digits. -/
def digitsVal : List Char → Nat → Nat
  | [], acc => acc
  | c :: rest, acc =>
    if '0' ≤ c ∧ c ≤ '9' then digitsVal rest (10 * acc + (c.toNat - '0'.toNat))
    else acc

/-- Modelled from the spec: the external best-effort integer parser
(`ParseInt` from utils, not under the analysed source): an optional minus
sign followed by leading decimal digits, defaulting to 0 on non-numeric
input (no failure is signalled). -/
def ParseInt (s : List Char) : Int :=
  match s with
  | '-' :: rest => - (digitsVal rest 0 : Int)
  | _ => (digitsVal s 0 : Int)

/- Modelled from the spec: the built-in command ids from Commands.h (not
under the analysed source).  Concrete values are representative; the only
facts used are that they are distinct, non-negative, and all strictly
below `CmdFirstWithArg`, the reserved seed of the instance-id counter. -/

def CmdNone : Int := 0
def CmdCreateAnnotText : Int := 1
def CmdCreateAnnotLink : Int := 2
def CmdCreateAnnotFreeText : Int := 3
def CmdCreateAnnotLine : Int := 4
def CmdCreateAnnotSquare : Int := 5
def CmdCreateAnnotCircle : Int := 6
def CmdCreateAnnotPolygon : Int := 7
def CmdCreateAnnotPolyLine : Int := 8
def CmdCreateAnnotHighlight : Int := 9
def CmdCreateAnnotUnderline : Int := 10
def CmdCreateAnnotSquiggly : Int := 11
def CmdCreateAnnotStrikeOut : Int := 12
def CmdCreateAnnotRedact : Int := 13
def CmdCreateAnnotStamp : Int := 14
def CmdCreateAnnotCaret : Int := 15
def CmdCreateAnnotInk : Int := 16
def CmdCreateAnnotPopup : Int := 17
def CmdCreateAnnotFileAttachment : Int := 18
def CmdScrollUp : Int := 19
def CmdScrollDown : Int := 20
def CmdGoToNextPage : Int := 21
def CmdGoToPrevPage : Int := 22
def CmdExec : Int := 23

/-- Modelled from the spec: the reserved boundary value seeding the
instance-id counter, strictly above the highest built-in command id. -/
def CmdFirstWithArg : Int := 100

/-- Modelled from the spec: the compiled-in command catalog
(`gCommandNames` / `gCommandIds`, generated from Commands.h which is not
under the analysed source): pairs of id and canonical name, in table
order. -/
def commandCatalog : List (Int × List Char) :=
  [ (CmdCreateAnnotText, "CreateAnnotText".toList)
  , (CmdCreateAnnotLink, "CreateAnnotLink".toList)
  , (CmdCreateAnnotFreeText, "CreateAnnotFreeText".toList)
  , (CmdCreateAnnotLine, "CreateAnnotLine".toList)
  , (CmdCreateAnnotSquare, "CreateAnnotSquare".toList)
  , (CmdCreateAnnotCircle, "CreateAnnotCircle".toList)
  , (CmdCreateAnnotPolygon, "CreateAnnotPolygon".toList)
  , (CmdCreateAnnotPolyLine, "CreateAnnotPolyLine".toList)
  , (CmdCreateAnnotHighlight, "CreateAnnotHighlight".toList)
  , (CmdCreateAnnotUnderline, "CreateAnnotUnderline".toList)
  , (CmdCreateAnnotSquiggly, "CreateAnnotSquiggly".toList)
  , (CmdCreateAnnotStrikeOut, "CreateAnnotStrikeOut".toList)
  , (CmdCreateAnnotRedact, "CreateAnnotRedact".toList)
  , (CmdCreateAnnotStamp, "CreateAnnotStamp".toList)
  , (CmdCreateAnnotCaret, "CreateAnnotCaret".toList)
  , (CmdCreateAnnotInk, "CreateAnnotInk".toList)
  , (CmdCreateAnnotPopup, "CreateAnnotPopup".toList)
  , (CmdCreateAnnotFileAttachment, "CreateAnnotFileAttachment".toList)
  , (CmdScrollUp, "ScrollUp".toList)
  , (CmdScrollDown, "ScrollDown".toList)
  , (CmdGoToNextPage, "GoToNextPage".toList)
  , (CmdGoToPrevPage, "GoToPrevPage".toList)
  , (CmdExec, "Exec".toList)
  ]

/-- Modelled from the spec: the matching rule of the catalog lookup
(`seqstrings::StrToIdxIS`, not under the analysed source): a table entry
matches if the input equals it case-insensitively, or the input is a
case-insensitive prefix of the entry followed by an equals sign. -/
def catalogNameMatches (input entry : List Char) : Bool :=
  eqI input entry ||
    (startsWithI entry input && (entry.getD input.length (Char.ofNat 0) == '='))

/-- First catalog entry matching the input; -1 when none does. -/
def lookupCatalog (input : List Char) : List (Int × List Char) → Int
  | [] => -1
  | (id, nm) :: rest =>
    if catalogNameMatches input nm then id else lookupCatalog input rest

/-- `GetCommandIdByName` of the source: resolve a command-name token to
its id via the catalog, -1 when not found. -/
def GetCommandIdByName (s : List Char) : Int :=
  lookupCatalog s commandCatalog

/- Modelled from the spec: the `kCmdArg*` argument-name constants from
Commands.h (not under the analysed source). -/

def kCmdArgSpec : List Char := "spec".toList
def kCmdArgFilter : List Char := "filter".toList
def kCmdArgColor : List Char := "color".toList
def kCmdArgOpenEdit : List Char := "openEdit".toList
def kCmdArgN : List Char := "n".toList

/-- A parsed argument value node, `CommandArg` of the source.  The value
fields mirror the members of the C structure; `new CommandArg()`
value-initializes them all, and the parser then sets exactly one of them,
so the unused fields keep their zero values (`[]`, `0`, `false`,
`zeroColor`). The `next` link is absorbed into the containing list. -/
structure CommandArg where
  name : List Char
  type : ArgType
  strVal : List Char
  intVal : Int
  boolVal : Bool
  colorVal : ParsedColor
deriving DecidableEq, Repr

/-- `newArg` of the source: a value-initialized node with type and name set. -/
def newArg (type : ArgType) (name : List Char) : CommandArg :=
  ⟨name, type, [], 0, false, zeroColor⟩

/-- Set the string value field. -/
def withStrVal (a : CommandArg) (v : List Char) : CommandArg :=
  ⟨a.name, a.type, v, a.intVal, a.boolVal, a.colorVal⟩

/-- Set the integer value field. -/
def withIntVal (a : CommandArg) (v : Int) : CommandArg :=
  ⟨a.name, a.type, a.strVal, v, a.boolVal, a.colorVal⟩

/-- Set the boolean value field. -/
def withBoolVal (a : CommandArg) (v : Bool) : CommandArg :=
  ⟨a.name, a.type, a.strVal, a.intVal, v, a.colorVal⟩

/-- Set the color value field. -/
def withColorVal (a : CommandArg) (v : ParsedColor) : CommandArg :=
  ⟨a.name, a.type, a.strVal, a.intVal, a.boolVal, v⟩

/-- `IsArgName` of the source: case-insensitive match of a stored argument
name against a queried name, or the stored name starts with the queried
name followed by an equals sign. -/
def IsArgName (name argName : List Char) : Bool :=
  if eqI name argName then true
  else if !(startsWithI name argName) then false
  else name.getD argName.length (Char.ofNat 0) == '='

/-- `insertArg` of the source: prepend the produced argument to the
instance's list; a null argument is ignored. -/
def insertArg (acc : List CommandArg) : Option CommandArg → List CommandArg
  | none => acc
  | some a => a :: acc

/-- `FindArg` of the source: scan the list for an argument whose name
matches and whose type equals the requested type; a name match of a
different type only logs a diagnostic and the scan continues. -/
def FindArg : List CommandArg → List Char → ArgType → Option CommandArg
  | [], _, _ => none
  | a :: rest, name, type =>
    if IsArgName a.name name then
      if a.type = type then some a
      else FindArg rest name type
    else FindArg rest name type

/-- A parameterized command instance, `CommandWithArg` of the source; the
registry's `next` link is absorbed into `CmdState.registry`. -/
structure CommandWithArg where
  id : Int
  origId : Int
  definition : List Char
  firstArg : List CommandArg
deriving DecidableEq, Repr

/-- The process-wide mutable state of the engine: the id counter
`gNextCommandWithArgId` and the registry list `gFirstCommandWithArg`. -/
structure CmdState where
  nextId : Int
  registry : List CommandWithArg
deriving DecidableEq, Repr

/-- The state at process start: the counter seeded at `CmdFirstWithArg`
and an empty registry (source lines 94-95). -/
def initState : CmdState := ⟨CmdFirstWithArg, []⟩

/-- `CreateCommandWithArg` of the source: mint a fresh id, build the
instance and prepend it to the registry. -/
def CreateCommandWithArg (st : CmdState) (definition : List Char)
    (origCmdId : Int) (firstArg : List CommandArg) : CommandWithArg × CmdState :=
  let id := st.nextId
  let cmd : CommandWithArg := ⟨id, origCmdId, definition, firstArg⟩
  (cmd, ⟨st.nextId + 1, cmd :: st.registry⟩)

/-- `FindCommandWithArg` of the source: linear scan of the registry by id. -/
def FindCommandWithArg (st : CmdState) (cmdId : Int) : Option CommandWithArg :=
  st.registry.find? (fun c => c.id == cmdId)

/-- `FreeCommandsWithArg` of the source: destroy every instance and reset
the registry to empty; the id counter is left untouched. -/
def FreeCommandsWithArg (st : CmdState) : CmdState :=
  ⟨st.nextId, []⟩

/-- One row of the argument-spec table, `ArgSpec` of the source. -/
structure ArgSpec where
  cmdId : Int
  name : List Char
  type : ArgType
deriving DecidableEq, Repr

/-- The sentinel row terminating the spec table. -/
def sentinelSpec : ArgSpec := ⟨CmdNone, [], ArgType.None⟩

/-- `argSpecs` of the source: arguments for the same command follow each
other; the first argument of a group is the default one. -/
def argSpecs : List ArgSpec :=
  [ ⟨CmdExec, kCmdArgSpec, ArgType.String⟩
  , ⟨CmdExec, kCmdArgFilter, ArgType.String⟩
  , ⟨CmdCreateAnnotText, kCmdArgColor, ArgType.Color⟩
  , ⟨CmdCreateAnnotText, kCmdArgOpenEdit, ArgType.Bool⟩
  , ⟨CmdScrollUp, kCmdArgN, ArgType.Int⟩
  , sentinelSpec
  ]

/-- `parseArgOfType` of the source: convert a raw value of a declared type
into an argument node; only Color can fail (invalid value is skipped with
a diagnostic), Int falls back to 0 silently, String always succeeds. -/
def parseArgOfType (argName : List Char) (type : ArgType) (val : List Char) :
    Option CommandArg :=
  match type with
  | ArgType.Color =>
    match ParseColor val with
    | none => none
    | some col => some (withColorVal (newArg ArgType.Color argName) col)
  | ArgType.Int => some (withIntVal (newArg ArgType.Int argName) (ParseInt val))
  | ArgType.String => some (withStrVal (newArg ArgType.String argName) val)
  | _ => none

/-- `tryParseDefaultArg` of the source: interpret the token at the cursor
as the value of the group's first (default) spec; for String the entire
remainder is the value; no matter what, the cursor advances past the
value.  The C `str::` helpers tolerate a null pointer, treating it as the
empty string, which is how a null cursor (possible here after a failed
named-argument attempt already advanced the cursor to null) behaves. -/
def tryParseDefaultArg (defaultArgIdx : Nat) (args : Option (List Char)) :
    Option CommandArg × Option (List Char) :=
  let a := args.getD []
  let valStart := skipChar ' ' a
  let spec := argSpecs.getD defaultArgIdx sentinelSpec
  let split := findCharSplit ' ' valStart
  let valEnd : Option (List Char) :=
    if spec.type = ArgType.String then none else split.2
  match valEnd with
  | none => (parseArgOfType spec.name spec.type valStart, none)
  | some r => (parseArgOfType spec.name spec.type split.1, some (skipChar ' ' r))

/-- `parseBool` of the source, verbatim: despite its comment promising
1 / 0 / -1, it returns `true` (1) for both recognized token sets and
`false` (0) for everything else. -/
def parseBool (s : List Char) : Int :=
  if eqI s "1".toList || eqI s "true".toList || eqI s "yes".toList then 1
  else if eqI s "0".toList || eqI s "false".toList || eqI s "no".toList then 1
  else 0

/-- The spec-table scan at the head of `tryParseNamedArg`: from the
group's first index, stop when the group id changes; return the first
spec whose name the remaining text starts with (case-insensitively). -/
def findSpecFrom (cmdId : Int) (s : List Char) : List ArgSpec → Option ArgSpec
  | [] => none
  | spec :: rest =>
    if spec.cmdId ≠ cmdId then none
    else if startsWithI s spec.name then some spec
    else findSpecFrom cmdId s rest

/-- The else-if chain of `tryParseNamedArg` that locates the start of the
value after the matched argument name: a space, a colon-space, or an
equals sign immediately followed by the value (`str::SkipChar` skips the
single separator space). -/
def namedValStart : List Char → Option (List Char)
  | ' ' :: rest => some rest
  | ':' :: ' ' :: rest => some rest
  | '=' :: rest => some rest
  | _ => none

/-- `tryParseNamedArg` of the source: try to parse `<name> <value>`,
`<name>: <value>`, `<name>=<value>`, or — for booleans — a bare `<name>`
at end of input.  Returns the produced argument (or `none`) and the new
cursor; paths that do not touch the C in-out cursor return `some args`. -/
def tryParseNamedArg (firstArgIdx : Nat) (args : List Char) :
    Option CommandArg × Option (List Char) :=
  let cmdId := (argSpecs.getD firstArgIdx sentinelSpec).cmdId
  match findSpecFrom cmdId args (argSpecs.drop firstArgIdx) with
  | none => (none, some args)
  | some spec =>
    let argName := spec.name
    let type := spec.type
    let s := args.drop argName.length
    match s with
    | [] =>
      if type = ArgType.Bool then
        (some (withBoolVal (newArg type argName) true), none)
      else (none, some args)
    | _ :: _ =>
      match namedValStart s with
      | none => (none, some args)
      | some valStart =>
        let split := findCharSplit ' ' valStart
        let valPair : List Char × Option (List Char) :=
          match split.2 with
          | none => (valStart, none)
          | some r => (split.1, some (r.drop 1))
        let val := valPair.1
        let valEnd := valPair.2
        if type = ArgType.Bool then
          let bv := parseBool val
          let arg := withBoolVal (newArg type argName) (bv != 0)
          if bv = 0 then (some arg, valEnd)
          else if bv = 1 then (some arg, valEnd)
          else (some arg, some valStart)
        else
          (parseArgOfType argName type val, valEnd)

/-- One iteration of the argument-scanning loop of `ParseCommand`: the
named-argument attempt first, the default-argument attempt when it
produced nothing (on the cursor as the named attempt left it). -/
def scanStep (firstArgIdx : Nat) (c : List Char) :
    Option CommandArg × Option (List Char) :=
  match tryParseNamedArg firstArgIdx c with
  | (some a, c') => (some a, c')
  | (none, c') => tryParseDefaultArg firstArgIdx c'

/-- The argument-scanning loop of `ParseCommand` (`for (; currArg;)`),
with explicit fuel; `ParseCommand` supplies fuel `length + 1`, which is
enough to drain any cursor (each iteration either nulls the cursor or
strictly shortens it). -/
def scanArgs (firstArgIdx : Nat) :
    Nat → Option (List Char) → List CommandArg → List CommandArg × Option (List Char)
  | 0, c, acc => (acc, c)
  | _ + 1, none, acc => (acc, none)
  | fuel + 1, some c, acc =>
    let step := scanStep firstArgIdx c
    scanArgs firstArgIdx fuel step.2 (insertArg acc step.1)

/-- The canonicalization switch of `ParseCommand`: all annotation-creating
commands share the CmdCreateAnnotText group, the scroll and page commands
share the CmdScrollUp group, CmdExec stands alone; every other command
accepts no arguments (`none`, the -1 path). -/
def canonicalizeCmd (cmdId : Int) : Option Int :=
  if cmdId = CmdCreateAnnotText ∨ cmdId = CmdCreateAnnotLink ∨
     cmdId = CmdCreateAnnotFreeText ∨ cmdId = CmdCreateAnnotLine ∨
     cmdId = CmdCreateAnnotSquare ∨ cmdId = CmdCreateAnnotCircle ∨
     cmdId = CmdCreateAnnotPolygon ∨ cmdId = CmdCreateAnnotPolyLine ∨
     cmdId = CmdCreateAnnotHighlight ∨ cmdId = CmdCreateAnnotUnderline ∨
     cmdId = CmdCreateAnnotSquiggly ∨ cmdId = CmdCreateAnnotStrikeOut ∨
     cmdId = CmdCreateAnnotRedact ∨ cmdId = CmdCreateAnnotStamp ∨
     cmdId = CmdCreateAnnotCaret ∨ cmdId = CmdCreateAnnotInk ∨
     cmdId = CmdCreateAnnotPopup ∨ cmdId = CmdCreateAnnotFileAttachment then
    some CmdCreateAnnotText
  else if cmdId = CmdScrollUp ∨ cmdId = CmdScrollDown ∨
          cmdId = CmdGoToNextPage ∨ cmdId = CmdGoToPrevPage then
    some CmdScrollUp
  else if cmdId = CmdExec then some CmdExec
  else none

/-- The spec-table search of `ParseCommand`: index of the first row of the
group, stopping at the sentinel (`none`, the -1 path). -/
def firstSpecIdxFrom (argCmdId : Int) : List ArgSpec → Nat → Option Nat
  | [], _ => none
  | spec :: rest, i =>
    if spec.cmdId = CmdNone then none
    else if spec.cmdId = argCmdId then some i
    else firstSpecIdxFrom argCmdId rest (i + 1)

/-- Index of the first spec row of a group in `argSpecs`. -/
def firstSpecIdx (argCmdId : Int) : Option Nat :=
  firstSpecIdxFrom argCmdId argSpecs 0

/-- `ParseCommand` of the source: split the definition, resolve the
command name, return the base id directly when there is no remainder,
canonicalize, locate the group's specs, run the scanning loop, fail with
-1 when zero arguments were parsed, otherwise register a fresh instance
and return its id. -/
def ParseCommand (st : CmdState) (definition : List Char) : Int × CmdState :=
  let parts := splitFirstSpace definition
  let cmdId := GetCommandIdByName parts.1
  if cmdId < 0 then (-1, st)
  else
    match parts.2 with
    | none => (cmdId, st)
    | some remainder =>
      match canonicalizeCmd cmdId with
      | none => (-1, st)
      | some argCmdId =>
        match firstSpecIdx argCmdId with
        | none => (-1, st)
        | some firstArgIdx =>
          let scanned := scanArgs firstArgIdx (remainder.length + 1) (some remainder) []
          match scanned.1 with
          | [] => (-1, st)
          | firstArg =>
            let res := CreateCommandWithArg st definition cmdId firstArg
            (res.1.id, res.2)

/-- The scan inside `GetArg` of the source: first argument whose name
matches case-insensitively, with no regard to its type. -/
def getArgList : List CommandArg → List Char → Option CommandArg
  | [], _ => none
  | a :: rest, name => if eqI a.name name then some a else getArgList rest name

/-- `GetArg` of the source: null instance yields not-found, otherwise the
case-insensitive name scan of the instance's argument list. -/
def GetArg (cmd : Option CommandWithArg) (name : List Char) : Option CommandArg :=
  match cmd with
  | none => none
  | some c => getArgList c.firstArg name

/-- `GetIntArg` of the source: the `intVal` field of whatever `GetArg`
found, or the caller's default. -/
def GetIntArg (cmd : Option CommandWithArg) (name : List Char) (defValue : Int) : Int :=
  match GetArg cmd name with
  | some a => a.intVal
  | none => defValue

/-- `GetBoolArg` of the source: the `boolVal` field of whatever `GetArg`
found, or the caller's default. -/
def GetBoolArg (cmd : Option CommandWithArg) (name : List Char) (defValue : Bool) : Bool :=
  match GetArg cmd name with
  | some a => a.boolVal
  | none => defValue

/-- Run `ParseCommand` over a sequence of definitions, collecting the
returned ids and threading the global state. -/
def runParseAll (st : CmdState) : List (List Char) → List Int × CmdState
  | [] => ([], st)
  | d :: ds =>
    let r := ParseCommand st d
    let rest := runParseAll r.2 ds
    (r.1 :: rest.1, rest.2)

/-- Well-formedness of the global state: the counter never went below its
seed, and every live instance id lies in `[CmdFirstWithArg, nextId)`. -/
def WF (st : CmdState) : Prop :=
  CmdFirstWithArg ≤ st.nextId ∧
    ∀ c ∈ st.registry, CmdFirstWithArg ≤ c.id ∧ c.id < st.nextId

/-! ## Helper lemmas -/

theorem skipChar_length_le (ch : Char) (l : List Char) :
    (skipChar ch l).length ≤ l.length := by
  cases l with
  | nil => simp [skipChar]
  | cons x xs =>
    simp only [skipChar]
    split <;> simp

theorem findCharSplit_some (ch : Char) :
    ∀ l r : List Char, (findCharSplit ch l).2 = some r →
      (∃ rs, r = ch :: rs) ∧ r.length ≤ l.length := by
  intro l
  induction l with
  | nil => intro r h; simp [findCharSplit] at h
  | cons x xs ih =>
    intro r h
    simp only [findCharSplit] at h
    split at h
    · rename_i hx
      simp only [Option.some.injEq] at h
      subst h
      exact ⟨⟨xs, by rw [hx]⟩, le_refl _⟩
    · simp only at h
      obtain ⟨hr, hlen⟩ := ih r h
      exact ⟨hr, Nat.le_succ_of_le hlen⟩

theorem splitFirstSpace_no_space :
    ∀ l : List Char, (∀ ch ∈ l, ch ≠ ' ') → splitFirstSpace l = (l, none) := by
  intro l
  induction l with
  | nil => intro _; rfl
  | cons c rest ih =>
    intro h
    simp only [splitFirstSpace]
    rw [if_neg (h c (List.mem_cons_self c rest))]
    rw [ih (fun ch hch => h ch (List.mem_cons_of_mem _ hch))]

theorem lookupCatalog_cases (s : List Char) :
    ∀ l : List (Int × List Char),
      lookupCatalog s l = -1 ∨ ∃ p ∈ l, lookupCatalog s l = p.1 := by
  intro l
  induction l with
  | nil => left; rfl
  | cons p rest ih =>
    obtain ⟨id, nm⟩ := p
    simp only [lookupCatalog]
    split
    · right
      exact ⟨(id, nm), List.mem_cons_self _ _, rfl⟩
    · rcases ih with h | ⟨q, hq, he⟩
      · left; exact h
      · right; exact ⟨q, List.mem_cons_of_mem _ hq, he⟩

theorem catalog_id_bounds : ∀ p ∈ commandCatalog, 0 ≤ p.1 ∧ p.1 < CmdFirstWithArg := by
  decide

theorem catalog_lookup_facts : ∀ p ∈ commandCatalog,
    GetCommandIdByName p.2 = p.1 ∧ ∀ ch ∈ p.2, ch ≠ ' ' := by
  decide

/-! ## Claim theorems: concrete parses -/

/-- Claim C1, counterexample: contrary to the claim, the definition
"CreateAnnotText color=not-a-color openEdit" does not produce an
instance either — ParseCommand returns -1 and leaves the state
unchanged, because after the invalid color value is dropped (cursor
already advanced), the same loop iteration hands the following token
"openEdit" to the default-argument attempt, which consumes it as an
invalid color value. -/
theorem c1_counterexample :
    ParseCommand initState ("CreateAnnotText color=not-a-color openEdit".toList)
      = (-1, initState) := by decide

/-- Claim C1 as amended: for both definitions
"CreateAnnotText color=not-a-color" and
"CreateAnnotText color=not-a-color openEdit", ParseCommand returns -1
and creates no instance (the state is unchanged): the invalid color
argument is dropped, but the rest of the remainder is consumed by the
default-argument fallback of the same iteration (as another invalid
color), so zero valid arguments are parsed in both cases. -/
theorem c1_theorem (st : CmdState) :
    ParseCommand st ("CreateAnnotText color=not-a-color".toList) = (-1, st)
  ∧ ParseCommand st ("CreateAnnotText color=not-a-color openEdit".toList) = (-1, st) :=
  ⟨rfl, rfl⟩

/-- Claim C2: with the CmdCreateAnnotText group (first spec index 2), the
Bool-typed name "openEdit" followed by the unrecognized token "maybe" and
then "x" produces an argument whose boolean value is false — not true —
and the scanner consumes "maybe" (the cursor moves to "x" instead of
being rewound to "maybe x"), because parseBool returns 0 for an
unrecognized string instead of the -1 its own comment documents, so the
rewind branch is dead code. -/
theorem c2_theorem :
    tryParseNamedArg 2 ("openEdit maybe x".toList)
      = (some (withBoolVal (newArg ArgType.Bool kCmdArgOpenEdit) false),
         some ("x".toList))
  ∧ parseBool ("maybe".toList) = 0 := by decide

/-- Claim C4, counterexample: in the instance parsed from
"CreateAnnotText color=#FF0000 openEdit", the argument named "openEdit"
is stored with type Bool, yet GetIntArg — queried with default -7 —
returns 0, the intVal field of that Bool-typed argument, instead of
treating the type-mismatched entry as not found: the typed accessors go
through GetArg, which never checks the type. -/
theorem c4_counterexample :
    GetIntArg
        (FindCommandWithArg
          (ParseCommand initState ("CreateAnnotText color=#FF0000 openEdit".toList)).2
          CmdFirstWithArg)
        kCmdArgOpenEdit (-7) = 0
  ∧ (GetArg
        (FindCommandWithArg
          (ParseCommand initState ("CreateAnnotText color=#FF0000 openEdit".toList)).2
          CmdFirstWithArg)
        kCmdArgOpenEdit).map CommandArg.type = some ArgType.Bool
  ∧ ArgType.Bool ≠ ArgType.Int := by decide

/-- Claim C4 as amended: the skip-on-type-mismatch-and-continue scan is
implemented by FindArg, which indeed never returns an argument of a
different type than requested (and only returns name matches); but the
typed accessors GetIntArg / GetBoolArg instead go through GetArg, which
scans by name only, so they return the stored value field of the first
name-matching argument regardless of its stored type. -/
theorem c4_theorem :
    (∀ (l : List CommandArg) (n : List Char) (t : ArgType) (a : CommandArg),
      FindArg l n t = some a → a.type = t ∧ IsArgName a.name n = true)
  ∧ (∀ (cmd : Option CommandWithArg) (n : List Char) (d : Int),
      GetIntArg cmd n d = d ∨
        ∃ a, GetArg cmd n = some a ∧ GetIntArg cmd n d = a.intVal) := by
  constructor
  · intro l n t
    induction l with
    | nil => intro a h; simp [FindArg] at h
    | cons x rest ih =>
      intro a h
      simp only [FindArg] at h
      split at h
      · split at h
        · rename_i hname htype
          cases h
          exact ⟨htype, hname⟩
        · exact ih a h
      · exact ih a h
  · intro cmd n d
    unfold GetIntArg
    cases h : GetArg cmd n with
    | none => left; rfl
    | some a => right; exact ⟨a, rfl, rfl⟩

/-- Witness for C4's amended theorem at a concrete argument list: FindArg
on a two-element list whose first entry matches the name but not the
type returns the later Color-typed entry. -/
theorem c4_witness :
    (withColorVal (newArg ArgType.Color kCmdArgColor) ⟨255, 0, 0, 255⟩).type = ArgType.Color
  ∧ IsArgName (withColorVal (newArg ArgType.Color kCmdArgColor) ⟨255, 0, 0, 255⟩).name
      kCmdArgColor = true :=
  c4_theorem.1
    [withBoolVal (newArg ArgType.Bool kCmdArgColor) true,
     withColorVal (newArg ArgType.Color kCmdArgColor) ⟨255, 0, 0, 255⟩]
    kCmdArgColor ArgType.Color
    (withColorVal (newArg ArgType.Color kCmdArgColor) ⟨255, 0, 0, 255⟩)
    (by decide)

/-- Claim C5: "CreateAnnotText color=#FF0000 openEdit" parses to a fresh
instance (id CmdFirstWithArg, the first fresh id) whose color argument
decodes to red (r=255, g=0, b=0, a=255) and whose boolean openEdit
argument is true; the scanning loop also fully consumes its cursor (the
bare Bool name at end of input nulls it). -/
theorem c5_theorem :
    ParseCommand initState ("CreateAnnotText color=#FF0000 openEdit".toList)
      = (CmdFirstWithArg,
         ⟨CmdFirstWithArg + 1,
          [⟨CmdFirstWithArg, CmdCreateAnnotText,
            "CreateAnnotText color=#FF0000 openEdit".toList,
            [withBoolVal (newArg ArgType.Bool kCmdArgOpenEdit) true,
             withColorVal (newArg ArgType.Color kCmdArgColor) ⟨255, 0, 0, 255⟩]⟩]⟩)
  ∧ (scanArgs 2 (("color=#FF0000 openEdit".toList).length + 1)
        (some ("color=#FF0000 openEdit".toList)) []).2 = none := by decide

/-- Claim C7: "ScrollUp 5" returns a fresh instance id (CmdFirstWithArg,
different from the ScrollUp base command id), and GetIntArg on the
instance found by FindCommandWithArg under that id, queried with the
group's default argument name "n" and default -1, returns 5. -/
theorem c7_theorem :
    (ParseCommand initState ("ScrollUp 5".toList)).1 = CmdFirstWithArg
  ∧ (ParseCommand initState ("ScrollUp 5".toList)).1 ≠ CmdScrollUp
  ∧ GetIntArg
      (FindCommandWithArg (ParseCommand initState ("ScrollUp 5".toList)).2
        (ParseCommand initState ("ScrollUp 5".toList)).1)
      kCmdArgN (-1) = 5 := by decide

/-- Claim C6: whenever the default-argument attempt runs for a spec row of
type String, the produced argument's value is the entire remaining input
(after the one-space skip of the helper), spaces included, and the cursor
is set to null; in particular "Exec notepad.exe --flag" creates an
instance whose single default String argument holds the literal value
"notepad.exe --flag". -/
theorem c6_theorem :
    (∀ (idx : Nat) (c : List Char),
      (argSpecs.getD idx sentinelSpec).type = ArgType.String →
        tryParseDefaultArg idx (some c)
          = (some (withStrVal (newArg ArgType.String (argSpecs.getD idx sentinelSpec).name)
              (skipChar ' ' c)), none))
  ∧ ParseCommand initState ("Exec notepad.exe --flag".toList)
      = (CmdFirstWithArg,
         ⟨CmdFirstWithArg + 1,
          [⟨CmdFirstWithArg, CmdExec, "Exec notepad.exe --flag".toList,
            [withStrVal (newArg ArgType.String kCmdArgSpec) ("notepad.exe --flag".toList)]⟩]⟩) := by
  constructor
  · intro idx c h
    simp only [List.getD_eq_getElem?_getD] at h
    simp [tryParseDefaultArg, h, parseArgOfType]
  · decide

/-- Witness for C6 at a concrete spec row and cursor: the Exec group's
default String spec (row 0) eats the whole remainder "a b c". -/
theorem c6_witness :
    tryParseDefaultArg 0 (some ("a b c".toList))
      = (some (withStrVal (newArg ArgType.String kCmdArgSpec) ("a b c".toList)), none) :=
  c6_theorem.1 0 ("a b c".toList) rfl

/-! ## Progress of the scanning loop -/

theorem namedValStart_some (s v : List Char) (h : namedValStart s = some v) :
    v.length < s.length := by
  unfold namedValStart at h
  split at h <;> simp_all
  all_goals omega

theorem tryParseDefaultArg_progress (idx : Nat) (oc : Option (List Char)) :
    (tryParseDefaultArg idx oc).2 = none ∨
      ∃ x c', oc = some x ∧ (tryParseDefaultArg idx oc).2 = some c' ∧
        c'.length < x.length := by
  cases oc with
  | none =>
    left
    simp [tryParseDefaultArg, skipChar, findCharSplit]
  | some x =>
    cases hsplit : (findCharSplit ' ' (skipChar ' ' x)).2 with
    | none =>
      left
      simp [tryParseDefaultArg, hsplit]
    | some r =>
      obtain ⟨⟨rs, hr⟩, hlen⟩ := findCharSplit_some ' ' _ r hsplit
      by_cases htype : (argSpecs[idx]?.getD sentinelSpec).type = ArgType.String
      · left
        simp [tryParseDefaultArg, List.getD_eq_getElem?_getD, htype]
      · right
        refine ⟨x, rs, rfl, ?_, ?_⟩
        · have hv : (tryParseDefaultArg idx (some x)).2 = some (skipChar ' ' r) := by
            simp [tryParseDefaultArg, List.getD_eq_getElem?_getD, htype, hsplit]
          rw [hv, hr]
          simp [skipChar]
        · have h1 : (skipChar ' ' x).length ≤ x.length := skipChar_length_le ' ' x
          have h2 : r.length = rs.length + 1 := by rw [hr]; rfl
          omega

theorem tryParseNamedArg_progress (idx : Nat) (c : List Char) :
    tryParseNamedArg idx c = (none, some c) ∨
      (tryParseNamedArg idx c).2 = none ∨
      ∃ c', (tryParseNamedArg idx c).2 = some c' ∧ c'.length < c.length := by
  cases hspec : findSpecFrom (argSpecs[idx]?.getD sentinelSpec).cmdId c (argSpecs.drop idx) with
  | none =>
    left
    simp [tryParseNamedArg, List.getD_eq_getElem?_getD, hspec]
  | some spec =>
    have hslen : (c.drop spec.name.length).length ≤ c.length := by
      rw [List.length_drop]; omega
    cases hs : c.drop spec.name.length with
    | nil =>
      by_cases hb : spec.type = ArgType.Bool
      · right; left
        simp [tryParseNamedArg, List.getD_eq_getElem?_getD, hspec, hs, hb]
      · left
        simp [tryParseNamedArg, List.getD_eq_getElem?_getD, hspec, hs, hb]
    | cons s0 srest =>
      rw [hs] at hslen
      cases hv : namedValStart (s0 :: srest) with
      | none =>
        left
        simp [tryParseNamedArg, List.getD_eq_getElem?_getD, hspec, hs, hv]
      | some v =>
        have hvlen : v.length < c.length := by
          have h1 := namedValStart_some _ _ hv
          have h4 : (s0 :: srest).length = srest.length + 1 := rfl
          omega
        cases hsp : (findCharSplit ' ' v).2 with
        | none =>
          by_cases hb : spec.type = ArgType.Bool
          · by_cases hb0 : parseBool v = 0
            · right; left
              simp [tryParseNamedArg, List.getD_eq_getElem?_getD, hspec, hs, hv, hsp, hb, hb0]
            · by_cases hb1 : parseBool v = 1
              · right; left
                simp [tryParseNamedArg, List.getD_eq_getElem?_getD, hspec, hs, hv, hsp, hb, hb0, hb1]
              · right; right
                refine ⟨v, ?_, hvlen⟩
                simp [tryParseNamedArg, List.getD_eq_getElem?_getD, hspec, hs, hv, hsp, hb, hb0, hb1]
          · right; left
            simp [tryParseNamedArg, List.getD_eq_getElem?_getD, hspec, hs, hv, hsp, hb]
        | some r =>
          obtain ⟨⟨rs, hr⟩, hrlen⟩ := findCharSplit_some ' ' _ r hsp
          have hdlen : (r.drop 1).length < c.length := by
            have h2 : r.length = rs.length + 1 := by rw [hr]; rfl
            have h3 : (r.drop 1).length = r.length - 1 := by simp
            omega
          by_cases hb : spec.type = ArgType.Bool
          · by_cases hb0 : parseBool (findCharSplit ' ' v).1 = 0
            · right; right
              refine ⟨r.drop 1, ?_, hdlen⟩
              simp [tryParseNamedArg, List.getD_eq_getElem?_getD, hspec, hs, hv, hsp, hb, hb0]
            · by_cases hb1 : parseBool (findCharSplit ' ' v).1 = 1
              · right; right
                refine ⟨r.drop 1, ?_, hdlen⟩
                simp [tryParseNamedArg, List.getD_eq_getElem?_getD, hspec, hs, hv, hsp, hb, hb0, hb1]
              · right; right
                refine ⟨v, ?_, hvlen⟩
                simp [tryParseNamedArg, List.getD_eq_getElem?_getD, hspec, hs, hv, hsp, hb, hb0, hb1]
          · right; right
            refine ⟨r.drop 1, ?_, hdlen⟩
            simp [tryParseNamedArg, List.getD_eq_getElem?_getD, hspec, hs, hv, hsp, hb]

theorem scanStep_progress (idx : Nat) (c : List Char) :
    (scanStep idx c).2 = none ∨
      ∃ c', (scanStep idx c).2 = some c' ∧ c'.length < c.length := by
  cases hn : tryParseNamedArg idx c with
  | mk a? c1 =>
    cases a? with
    | some a =>
      have hstep : scanStep idx c = (some a, c1) := by simp [scanStep, hn]
      rcases tryParseNamedArg_progress idx c with h | h | ⟨c', hc', hlen⟩
      · rw [hn] at h; simp at h
      · rw [hn] at h; simp at h
        left; rw [hstep]; exact h
      · rw [hn] at hc'; simp at hc'
        right; exact ⟨c', by rw [hstep]; exact hc', hlen⟩
    | none =>
      have hstep : scanStep idx c = tryParseDefaultArg idx c1 := by simp [scanStep, hn]
      rw [hstep]
      rcases tryParseNamedArg_progress idx c with h | h | ⟨c', hc', hlen⟩
      · rw [hn] at h; simp at h
        subst h
        rcases tryParseDefaultArg_progress idx (some c) with hd | ⟨x, c2, hx, hc2, hlen2⟩
        · left; exact hd
        · simp at hx; subst hx
          right; exact ⟨c2, hc2, hlen2⟩
      · rw [hn] at h; simp at h
        subst h
        rcases tryParseDefaultArg_progress idx none with hd | ⟨x, c2, hx, hc2, hlen2⟩
        · left; exact hd
        · simp at hx
      · rw [hn] at hc'; simp at hc'
        subst hc'
        rcases tryParseDefaultArg_progress idx (some c') with hd | ⟨x, c2, hx, hc2, hlen2⟩
        · left; exact hd
        · simp at hx; subst hx
          right; exact ⟨c2, hc2, Nat.lt_trans hlen2 hlen⟩

theorem scanArgs_none_cursor (idx fuel : Nat) (acc : List CommandArg) :
    scanArgs idx fuel none acc = (acc, none) := by
  cases fuel <;> rfl

theorem scanArgs_drains (n : Nat) :
    ∀ (c : List Char) (idx : Nat) (acc : List CommandArg) (fuel : Nat),
      c.length ≤ n → c.length < fuel →
      (scanArgs idx fuel (some c) acc).2 = none := by
  induction n with
  | zero =>
    intro c idx acc fuel hc hf
    obtain ⟨f, rfl⟩ : ∃ f, fuel = f + 1 := ⟨fuel - 1, by omega⟩
    simp only [scanArgs]
    rcases scanStep_progress idx c with h | ⟨c', hc', hlen⟩
    · rw [h, scanArgs_none_cursor]
    · omega
  | succ n ih =>
    intro c idx acc fuel hc hf
    obtain ⟨f, rfl⟩ : ∃ f, fuel = f + 1 := ⟨fuel - 1, by omega⟩
    simp only [scanArgs]
    rcases scanStep_progress idx c with h | ⟨c', hc', hlen⟩
    · rw [h, scanArgs_none_cursor]
    · rw [hc']
      exact ih c' idx _ f (by omega) (by omega)

/-- Claim C10: the argument-scanning loop of ParseCommand terminates on
every remainder: each iteration either nulls the cursor or strictly
shortens it, so running the loop with fuel length+1 (as ParseCommand
does) always drains the cursor to null — no input can make the loop run
forever. -/
theorem c10_theorem (idx : Nat) (c : List Char) (acc : List CommandArg) :
    (scanArgs idx (c.length + 1) (some c) acc).2 = none
  ∧ ((scanStep idx c).2 = none ∨
      ∃ c', (scanStep idx c).2 = some c' ∧ c'.length < c.length) :=
  ⟨scanArgs_drains c.length c idx acc (c.length + 1) (le_refl _) (Nat.lt_succ_self _),
   scanStep_progress idx c⟩

/-! ## State evolution of the registry -/

theorem ParseCommand_cases (st : CmdState) (d : List Char) :
    ((ParseCommand st d).2 = st ∧
      ((ParseCommand st d).1 = -1 ∨
        ∃ p ∈ commandCatalog, (ParseCommand st d).1 = p.1))
  ∨ ((ParseCommand st d).1 = st.nextId ∧
      (ParseCommand st d).2.nextId = st.nextId + 1 ∧
      ∃ cw : CommandWithArg, cw.id = st.nextId ∧
        (ParseCommand st d).2.registry = cw :: st.registry) := by
  by_cases h0 : GetCommandIdByName (splitFirstSpace d).1 < 0
  · left
    exact ⟨by simp [ParseCommand, h0], Or.inl (by simp [ParseCommand, h0])⟩
  · cases hrest : (splitFirstSpace d).2 with
    | none =>
      left
      refine ⟨by simp [ParseCommand, h0, hrest], Or.inr ?_⟩
      rcases lookupCatalog_cases (splitFirstSpace d).1 commandCatalog with hm | ⟨p, hp, he⟩
      · exact absurd (by unfold GetCommandIdByName; rw [hm]; decide) h0
      · have h0' : ¬ p.1 < 0 := by
          unfold GetCommandIdByName at h0
          rw [he] at h0
          exact h0
        exact ⟨p, hp, by simp [ParseCommand, h0, h0', hrest, GetCommandIdByName, he]⟩
    | some rem =>
      cases hcan : canonicalizeCmd (GetCommandIdByName (splitFirstSpace d).1) with
      | none =>
        left
        exact ⟨by simp [ParseCommand, h0, hrest, hcan],
               Or.inl (by simp [ParseCommand, h0, hrest, hcan])⟩
      | some argCmdId =>
        cases hidx : firstSpecIdx argCmdId with
        | none =>
          left
          exact ⟨by simp [ParseCommand, h0, hrest, hcan, hidx],
                 Or.inl (by simp [ParseCommand, h0, hrest, hcan, hidx])⟩
        | some idx =>
          cases hscan : (scanArgs idx (rem.length + 1) (some rem) []).1 with
          | nil =>
            left
            exact ⟨by simp [ParseCommand, h0, hrest, hcan, hidx, hscan],
                   Or.inl (by simp [ParseCommand, h0, hrest, hcan, hidx, hscan])⟩
          | cons a rest =>
            right
            refine ⟨?_, ?_,
              ⟨st.nextId, GetCommandIdByName (splitFirstSpace d).1, d, a :: rest⟩,
              rfl, ?_⟩
            · simp [ParseCommand, h0, hrest, hcan, hidx, hscan, CreateCommandWithArg]
            · simp [ParseCommand, h0, hrest, hcan, hidx, hscan, CreateCommandWithArg]
            · simp [ParseCommand, h0, hrest, hcan, hidx, hscan, CreateCommandWithArg]

theorem ParseCommand_WF (st : CmdState) (d : List Char) (h : WF st) :
    WF (ParseCommand st d).2 ∧
    st.nextId ≤ (ParseCommand st d).2.nextId ∧
    (CmdFirstWithArg ≤ (ParseCommand st d).1 →
      (ParseCommand st d).1 = st.nextId ∧
      (ParseCommand st d).2.nextId = st.nextId + 1) ∧
    (¬ CmdFirstWithArg ≤ (ParseCommand st d).1 → (ParseCommand st d).2 = st) := by
  rcases ParseCommand_cases st d with ⟨hst, hres⟩ | ⟨hid, hnext, cw, hcw, hreg⟩
  · refine ⟨by rw [hst]; exact h, by rw [hst], ?_, fun _ => hst⟩
    intro hge
    exfalso
    rcases hres with h1 | ⟨p, hp, h1⟩
    · rw [h1] at hge
      exact absurd hge (by decide)
    · rw [h1] at hge
      have h2 := (catalog_id_bounds p hp).2
      omega
  · refine ⟨⟨?_, ?_⟩, ?_, fun _ => ⟨hid, hnext⟩, ?_⟩
    · rw [hnext]
      have := h.1
      omega
    · intro cx hcx
      rw [hreg] at hcx
      rcases List.mem_cons.mp hcx with rfl | hmem
      · rw [hcw, hnext]
        exact ⟨h.1, by omega⟩
      · have h3 := h.2 cx hmem
        rw [hnext]
        exact ⟨h3.1, by omega⟩
    · rw [hnext]; omega
    · intro hlt
      exfalso
      rw [hid] at hlt
      exact hlt h.1

theorem runParseAll_spec :
    ∀ (ds : List (List Char)) (st : CmdState), WF st →
      WF (runParseAll st ds).2
    ∧ st.nextId ≤ (runParseAll st ds).2.nextId
    ∧ (∀ r ∈ (runParseAll st ds).1, CmdFirstWithArg ≤ r →
        st.nextId ≤ r ∧ r < (runParseAll st ds).2.nextId)
    ∧ List.Pairwise (fun a b => a < b)
        ((runParseAll st ds).1.filter fun r => decide (CmdFirstWithArg ≤ r)) := by
  intro ds
  induction ds with
  | nil =>
    intro st h
    exact ⟨h, le_refl _, by simp [runParseAll], by simp [runParseAll]⟩
  | cons d ds ih =>
    intro st h
    obtain ⟨wf1, le1, hcr, -⟩ := ParseCommand_WF st d h
    obtain ⟨wf2, le2, bound2, pair2⟩ := ih (ParseCommand st d).2 wf1
    have hlist : (runParseAll st (d :: ds)).1
        = (ParseCommand st d).1 :: (runParseAll (ParseCommand st d).2 ds).1 := by
      simp [runParseAll]
    have hstate : (runParseAll st (d :: ds)).2
        = (runParseAll (ParseCommand st d).2 ds).2 := by
      simp [runParseAll]
    refine ⟨by rw [hstate]; exact wf2, by rw [hstate]; exact le_trans le1 le2, ?_, ?_⟩
    · intro r hr hge
      rw [hlist] at hr
      rw [hstate]
      rcases List.mem_cons.mp hr with rfl | hmem
      · obtain ⟨hr1, hr2⟩ := hcr hge
        rw [hr1]
        constructor
        · exact le_refl _
        · have := le2
          omega
      · obtain ⟨hb1, hb2⟩ := bound2 r hmem hge
        exact ⟨le_trans le1 hb1, hb2⟩
    · rw [hlist, List.filter_cons]
      by_cases hge : CmdFirstWithArg ≤ (ParseCommand st d).1
      · rw [if_pos (by simpa using hge)]
        refine List.Pairwise.cons ?_ pair2
        intro x hx
        obtain ⟨hx1, hx2b⟩ := List.mem_filter.mp hx
        have hx2 : CmdFirstWithArg ≤ x := of_decide_eq_true hx2b
        obtain ⟨hb1, -⟩ := bound2 x hx1 hx2
        obtain ⟨hr1, hr2⟩ := hcr hge
        rw [hr1]
        omega
      · rw [if_neg (by simpa using hge)]
        exact pair2

/-- Claim C3: over any sequence of ParseCommand calls starting at process
start, the instance ids returned (the return values at or above
CmdFirstWithArg, i.e. exactly those produced when an instance was
created) are strictly increasing in order of issue, and every one of
them differs from every built-in base command id of the catalog. -/
theorem c3_theorem (ds : List (List Char)) :
    List.Pairwise (fun a b => a < b)
      ((runParseAll initState ds).1.filter fun r => decide (CmdFirstWithArg ≤ r))
  ∧ ∀ r ∈ (runParseAll initState ds).1.filter fun r => decide (CmdFirstWithArg ≤ r),
      ∀ p ∈ commandCatalog, r ≠ p.1 := by
  have hWF : WF initState := ⟨le_refl _, fun c hc => nomatch hc⟩
  obtain ⟨-, -, -, hpair⟩ := runParseAll_spec ds initState hWF
  refine ⟨hpair, ?_⟩
  intro r hr p hp heq
  obtain ⟨-, hdec⟩ := List.mem_filter.mp hr
  have h2 : CmdFirstWithArg ≤ r := of_decide_eq_true hdec
  have h3 := (catalog_id_bounds p hp).2
  rw [heq] at h2
  omega

/-- Claim C8: for every catalog entry, feeding its bare name (which has no
space and hence no remainder) to ParseCommand in any well-formed state
returns the base command id directly with the state unchanged (no
instance is created), and FindCommandWithArg on that base id finds
nothing, since every registered instance id lies at or above
CmdFirstWithArg while base ids lie strictly below it. -/
theorem c8_theorem (id : Int) (nm : List Char)
    (hmem : (id, nm) ∈ commandCatalog) (st : CmdState) (hw : WF st) :
    ParseCommand st nm = (id, st) ∧ FindCommandWithArg st id = none := by
  have hlook : GetCommandIdByName nm = id := (catalog_lookup_facts (id, nm) hmem).1
  have hns : ∀ ch ∈ nm, ch ≠ ' ' := (catalog_lookup_facts (id, nm) hmem).2
  have hpos : 0 ≤ id := (catalog_id_bounds (id, nm) hmem).1
  have hlt : id < CmdFirstWithArg := (catalog_id_bounds (id, nm) hmem).2
  constructor
  · have hsplit : splitFirstSpace nm = (nm, none) := splitFirstSpace_no_space nm hns
    have hneg : ¬ id < 0 := not_lt.mpr hpos
    simp [ParseCommand, hsplit, hlook, hneg]
  · unfold FindCommandWithArg
    rw [List.find?_eq_none]
    intro cx hcx
    have h5 := hw.2 cx hcx
    simp only [beq_iff_eq]
    intro he
    rw [he] at h5
    omega

/-- Witness for C8 at the ScrollUp catalog entry and the initial state. -/
theorem c8_witness :
    ParseCommand initState ("ScrollUp".toList) = (CmdScrollUp, initState)
  ∧ FindCommandWithArg initState CmdScrollUp = none :=
  c8_theorem CmdScrollUp ("ScrollUp".toList) (by decide) initState
    ⟨le_refl _, fun c hc => nomatch hc⟩

/-- Claim C9: clearing the registry destroys every instance (lookup of any
id afterwards finds nothing) and leaves the id counter untouched, so any
subsequent ParseCommand call that creates an instance still returns an
id strictly greater than every id issued before the clear (all of which
lie below the preserved counter in a well-formed state). -/
theorem c9_theorem (st : CmdState) (hw : WF st) :
    (FreeCommandsWithArg st).nextId = st.nextId
  ∧ (∀ k : Int, FindCommandWithArg (FreeCommandsWithArg st) k = none)
  ∧ (∀ d : List Char,
      CmdFirstWithArg ≤ (ParseCommand (FreeCommandsWithArg st) d).1 →
      ∀ j : Int, j < st.nextId → j < (ParseCommand (FreeCommandsWithArg st) d).1) := by
  refine ⟨rfl, fun k => rfl, ?_⟩
  intro d hge j hj
  have hwf' : WF (FreeCommandsWithArg st) := ⟨hw.1, fun c hc => nomatch hc⟩
  obtain ⟨-, -, hcr, -⟩ := ParseCommand_WF (FreeCommandsWithArg st) d hwf'
  obtain ⟨hid, -⟩ := hcr hge
  rw [hid]
  exact hj

/-- Witness for C9 at the state holding the instance parsed from
"ScrollUp 5" (counter 101): after the clear, the counter is unchanged,
the instance id 100 is gone, and a new parse of "ScrollUp 7" mints an
id above the previously issued id 42 < 101. -/
theorem c9_witness :
    (FreeCommandsWithArg (ParseCommand initState ("ScrollUp 5".toList)).2).nextId
      = (ParseCommand initState ("ScrollUp 5".toList)).2.nextId
  ∧ FindCommandWithArg
      (FreeCommandsWithArg (ParseCommand initState ("ScrollUp 5".toList)).2)
      (100 : Int) = none
  ∧ (42 : Int) <
      (ParseCommand (FreeCommandsWithArg (ParseCommand initState ("ScrollUp 5".toList)).2)
        ("ScrollUp 7".toList)).1 := by
  have h := c9_theorem (ParseCommand initState ("ScrollUp 5".toList)).2
    (by unfold WF; exact ⟨by decide, by decide⟩)
  exact ⟨h.1, h.2.1 100, h.2.2 ("ScrollUp 7".toList) (by decide) 42 (by decide)⟩

/-- Witness for C3 at the one-definition trace ["ScrollUp 5"]: the single
created instance id 100 differs from the ScrollUp base command id. -/
theorem c3_witness : (100 : Int) ≠ CmdScrollUp :=
  (c3_theorem [("ScrollUp 5".toList)]).2 100 (by decide)
    (CmdScrollUp, "ScrollUp".toList) (by decide)
